import Mathlib

/-!
# Pirate Islands — verification of the game-state engine

A shallow embedding of the text adventure in `TextBasedGme.py`.  The game
state (world item lists plus the player) is passed explicitly; printed output
is modelled as a list of abstract `Msg` events.  The Python `KeyError` paths
(looking up a location name that is not a key of `WORLD`, which aborts the
process) are modelled as aborting no-ops that emit `Msg.keyError`; they are
unreachable from the initial state, as proved below.
-/

set_option maxHeartbeats 1000000

namespace PirateIslands

/-- Definition `TREASURE_ITEMS` from the source: the fixed set of treasure item names
(a Python `set` literal, used only for subset / membership tests). -/
def TREASURE_ITEMS : List String :=
  ["cutlass", "compass", "doubloon", "rum", "spyglass", "map piece"]

/-- The `Island` dataclass: name, description, mutable item list,
`direction -> island name` exit mapping. -/
structure Island where
  name : String
  description : String
  items : List String
  exits : List (String × String)
  deriving DecidableEq

/-- Definition `WORLD`: the static world layout, a mapping from location name to island.
Represented as an association list in Python insertion order. -/
def WORLD : List (String × Island) := [
  ("Pirate Cove",
    { name := "Pirate Cove",
      description := "Your secret hideout: a crescent beach with a beached skiff and a fire pit.\nLegends say a captain who returns with the full trove becomes ruler of the winds.",
      items := ["note"],
      exits := [("east", "Skull Key"), ("south", "Mermaid Shoals")] }),
  ("Skull Key",
    { name := "Skull Key",
      description := "A jagged islet shaped like a skull. Gulls circle overhead; something glints in a crevice.",
      items := ["spyglass"],
      exits := [("west", "Pirate Cove"), ("east", "Blackwater Cay")] }),
  ("Blackwater Cay",
    { name := "Blackwater Cay",
      description := "Waters here are inky and calm. A half‑sunken sloop lists against coral.",
      items := ["compass"],
      exits := [("west", "Skull Key"), ("south", "Rumrunner Atoll")] }),
  ("Rumrunner Atoll",
    { name := "Rumrunner Atoll",
      description := "Palm shadows dapple caches of old bottles. Footprints criss‑cross the sand.",
      items := ["rum"],
      exits := [("north", "Blackwater Cay"), ("west", "Mermaid Shoals")] }),
  ("Mermaid Shoals",
    { name := "Mermaid Shoals",
      description := "Shallow turquoise flats sing with the tide. A carved stone points somewhere unseen.",
      items := ["map piece"],
      exits := [("north", "Pirate Cove"), ("east", "Rumrunner Atoll"), ("south", "Cutlass Bay")] }),
  ("Cutlass Bay",
    { name := "Cutlass Bay",
      description := "Crescent bay where waves sharpen on a reef. Something metallic lies under kelp.",
      items := ["cutlass"],
      exits := [("north", "Mermaid Shoals"), ("east", "Doubloon Point")] }),
  ("Doubloon Point",
    { name := "Doubloon Point",
      description := "A rocky spit with tide pools full of tiny stars. A coin winks in the foam.",
      items := ["doubloon"],
      exits := [("west", "Cutlass Bay")] })
]

/-- Definition `START_ISLAND` from the source. -/
def START_ISLAND : String := "Pirate Cove"

/-- The `Player` dataclass: current location name and inventory list. -/
structure Player where
  location : String
  inventory : List String
  deriving DecidableEq

/-- Method `Player.has_all_treasure`: `TREASURE_ITEMS.issubset(set(self.inventory))`,
i.e. every treasure name occurs in the inventory. -/
def Player.has_all_treasure (p : Player) : Bool :=
  TREASURE_ITEMS.all (fun t => p.inventory.contains t)

/-- The whole mutable game state: the world (its item lists are mutable)
plus the player. -/
structure GameState where
  world : List (String × Island)
  player : Player
  deriving DecidableEq

/-- Abstract print events.  Each constructor stands for one of the distinct
messages the Python code prints. -/
inductive Msg where
  | goWhere
  | notADirection
  | noPassage
  | locationShown (name : String)
  | takeWhat
  | dontSeeThat
  | youTake (item : String)
  | dropWhat
  | notCarrying
  | youDrop (item : String)
  | bagEmpty
  | carrying (items : List String)
  | stillMissing (items : List String)
  | troveComplete
  | victory
  | helpShown
  | farewell
  | unrecognized
  | keyError
  deriving DecidableEq

/-- ASCII lowercasing of a string, character by character — the behaviour of
the Python method `str.lower()` on all strings the game data can interact with. -/
def lowerStr (s : String) : String := String.mk (s.data.map Char.toLower)

/-- Auxiliary: does `needle` occur at the start of the list? -/
def startsWithSeq : List Char → List Char → Bool
  | [], _ => true
  | _ :: _, [] => false
  | a :: as, b :: bs => a == b && startsWithSeq as bs

/-- Auxiliary: does `needle` occur contiguously anywhere in the list? -/
def containsSeq (needle : List Char) : List Char → Bool
  | [] => startsWithSeq needle []
  | c :: rest => startsWithSeq needle (c :: rest) || containsSeq needle rest

/-- The Python test `needle in hay` on strings: contiguous substring test. -/
def containsSub (hay needle : String) : Bool := containsSeq needle.data hay.data

/-- Auxiliary for `tokensOf`: split on whitespace, accumulating the current
token in reverse in `acc`, emitting only nonempty tokens. -/
def splitWsAux (acc : List Char) : List Char → List String
  | [] => if acc.isEmpty then [] else [String.mk acc.reverse]
  | c :: rest =>
    if c.isWhitespace then
      (if acc.isEmpty then [] else [String.mk acc.reverse]) ++ splitWsAux [] rest
    else
      splitWsAux (c :: acc) rest

/-- Expression `command.strip().split()` (with the redundant `if t` filter of line 251):
the whitespace-separated nonempty tokens of the line. -/
def tokensOf (command : String) : List String := splitWsAux [] command.data

/-- Indexing `WORLD[key]` as a total lookup: the first association-list entry whose key
matches (keys are unique in `WORLD`). -/
def lookupIsland : List (String × Island) → String → Option Island
  | [], _ => none
  | (k, isl) :: rest, key => if k = key then some isl else lookupIsland rest key

/-- In-place mutation of the island stored under `key`: rebuild the
association list with `f` applied to the first entry whose key matches. -/
def updateIsland : List (String × Island) → String → (Island → Island) → List (String × Island)
  | [], _, _ => []
  | (k, isl) :: rest, key, f =>
    if k = key then (k, f isl) :: rest else (k, isl) :: updateIsland rest key f

/-- Indexing `island.exits[direction]` (the `direction in island.exits` test plus
indexing). -/
def lookupExit : List (String × String) → String → Option String
  | [], _ => none
  | (d, dest) :: rest, dir => if d = dir then some dest else lookupExit rest dir

/-- Function `parse_direction`: normalize a direction token, or `none` if invalid. -/
def parse_direction (token : String) : Option String :=
  let t := lowerStr token
  if t = "n" ∨ t = "north" then some "north"
  else if t = "s" ∨ t = "south" then some "south"
  else if t = "e" ∨ t = "east" then some "east"
  else if t = "w" ∨ t = "west" then some "west"
  else none

/-- Function `show_location`: prints a snapshot of the current location (name,
description, items, exits) — abstracted as a single event carrying the name. -/
def show_location (s : GameState) : List Msg := [Msg.locationShown s.player.location]

/-- Function `handle_go`: move the player if the argument resolves to a direction with
an exit at the current location; otherwise reject without changing state. -/
def handle_go (s : GameState) (args : List String) : GameState × List Msg :=
  match args with
  | [] => (s, [Msg.goWhere])
  | a :: _ =>
    match parse_direction a with
    | none => (s, [Msg.notADirection])
    | some direction =>
      match lookupIsland s.world s.player.location with
      | none => (s, [Msg.keyError])
      | some island =>
        match lookupExit island.exits direction with
        | none => (s, [Msg.noPassage])
        | some dest =>
          let s2 : GameState := { s with player := { s.player with location := dest } }
          (s2, show_location s2)

/-- The item-matching predicate of `handle_take` / `handle_drop`:
`item in i.lower()` where `item` is the lowered argument string. -/
def matchesItem (arg : String) (i : String) : Bool := containsSub (lowerStr i) arg

/-- Function `handle_take`: the first case-insensitive substring match in the
item list of the current location moves from the island to the end of the inventory;
on success the victory condition is checked. -/
def handle_take (s : GameState) (args : List String) : GameState × List Msg :=
  match args with
  | [] => (s, [Msg.takeWhat])
  | _ :: _ =>
    match lookupIsland s.world s.player.location with
    | none => (s, [Msg.keyError])
    | some island =>
      match island.items.filter (matchesItem (lowerStr (String.intercalate " " args))) with
      | [] => (s, [Msg.dontSeeThat])
      | found :: _ =>
        if Player.has_all_treasure { s.player with inventory := s.player.inventory ++ [found] } = true ∧
            s.player.location = "Pirate Cove" then
          ({ s with
              world := updateIsland s.world s.player.location
                (fun isl => { isl with items := isl.items.erase found }),
              player := { s.player with inventory := s.player.inventory ++ [found] } },
            [Msg.youTake found, Msg.victory])
        else
          ({ s with
              world := updateIsland s.world s.player.location
                (fun isl => { isl with items := isl.items.erase found }),
              player := { s.player with inventory := s.player.inventory ++ [found] } },
            [Msg.youTake found])

/-- Function `handle_drop`: the first case-insensitive substring match in the
inventory moves from the inventory to the end of the item list of the current location. -/
def handle_drop (s : GameState) (args : List String) : GameState × List Msg :=
  match args with
  | [] => (s, [Msg.dropWhat])
  | _ :: _ =>
    match s.player.inventory.filter (matchesItem (lowerStr (String.intercalate " " args))) with
    | [] => (s, [Msg.notCarrying])
    | found :: _ =>
      match lookupIsland s.world s.player.location with
      | none => (s, [Msg.keyError])
      | some _ =>
        ({ s with
            world := updateIsland s.world s.player.location
              (fun isl => { isl with items := isl.items ++ [found] }),
            player := { s.player with inventory := s.player.inventory.erase found } },
          [Msg.youDrop found])

/-- Function `handle_inventory`: report carried items and missing treasures;
no state change. -/
def handle_inventory (s : GameState) : List Msg :=
  if s.player.inventory.isEmpty then [Msg.bagEmpty]
  else if (TREASURE_ITEMS.filter (fun t => !(s.player.inventory.contains t))).isEmpty then
    [Msg.carrying s.player.inventory, Msg.troveComplete]
  else
    [Msg.carrying s.player.inventory,
      Msg.stillMissing (TREASURE_ITEMS.filter (fun t => !(s.player.inventory.contains t)))]

/-- Function `check_victory_on_move`: announce victory when the player is at
Pirate Cove holding all the treasure. -/
def check_victory_on_move (s : GameState) : List Msg :=
  if s.player.location = "Pirate Cove" ∧ s.player.has_all_treasure = true then [Msg.victory]
  else []

/-- Function `handle_command`: tokenize the line, dispatch on the lowered verb, return
(continue?, new state, printed events).  `true` means the loop continues. -/
def handle_command (s : GameState) (command : String) : Bool × GameState × List Msg :=
  match tokensOf command with
  | [] => (true, s, [])
  | v :: args =>
    if lowerStr v = "go" ∨ lowerStr v = "move" then
      (true, (handle_go s args).1,
        (handle_go s args).2 ++ check_victory_on_move (handle_go s args).1)
    else if lowerStr v = "n" ∨ lowerStr v = "s" ∨ lowerStr v = "e" ∨ lowerStr v = "w" ∨
        lowerStr v = "north" ∨ lowerStr v = "south" ∨ lowerStr v = "east" ∨ lowerStr v = "west" then
      (true, (handle_go s [lowerStr v]).1,
        (handle_go s [lowerStr v]).2 ++ check_victory_on_move (handle_go s [lowerStr v]).1)
    else if lowerStr v = "look" ∨ lowerStr v = "l" then
      (true, s, show_location s)
    else if lowerStr v = "take" ∨ lowerStr v = "get" ∨ lowerStr v = "pick" then
      (true, (handle_take s args).1, (handle_take s args).2)
    else if lowerStr v = "drop" then
      (true, (handle_drop s args).1, (handle_drop s args).2)
    else if lowerStr v = "inventory" ∨ lowerStr v = "inv" ∨ lowerStr v = "i" ∨ lowerStr v = "bag" then
      (true, s, handle_inventory s)
    else if lowerStr v = "help" ∨ lowerStr v = "h" ∨ lowerStr v = "?" then
      (true, s, [Msg.helpShown])
    else if lowerStr v = "quit" ∨ lowerStr v = "exit" then
      (false, s, [Msg.farewell])
    else
      (true, s, [Msg.unrecognized])

/-- The state at the start of a session (`Player()` bound to `WORLD`). -/
def initState : GameState :=
  { world := WORLD, player := { location := START_ISLAND, inventory := [] } }

/-- The state after one `handle_command` invocation. -/
def stepCommand (s : GameState) (c : String) : GameState := (handle_command s c).2.1

/-- The state after a sequence of `handle_command` invocations from `s`. -/
def runFrom (s : GameState) (cmds : List String) : GameState := cmds.foldl stepCommand s

/-- The state after a sequence of `handle_command` invocations in a fresh
session.  (Commands after a `quit` would not be read by the real loop, but
`quit` leaves the state unchanged, so this covers every real session.) -/
def runCommands (cmds : List String) : GameState := runFrom initState cmds

/-- Total number of occurrences of item name `n` in the item lists of the world. -/
def locCount (w : List (String × Island)) (n : String) : Nat :=
  (w.map (fun p => p.2.items.count n)).sum

/-- Total number of occurrences of item name `n` across every container:
all location item lists plus the inventory. -/
def totalCount (s : GameState) (n : String) : Nat :=
  locCount s.world n + s.player.inventory.count n

/-- All item names present anywhere at the start of a session. -/
def allInitialItems : List String := (WORLD.map (fun p => p.2.items)).flatten

/-- Does `k` name a location of `w`? -/
def isKeyOf (w : List (String × Island)) (k : String) : Bool :=
  (lookupIsland w k).isSome

/-- Every exit destination of every island of `w` is a key of `w`. -/
def worldClosed (w : List (String × Island)) : Bool :=
  w.all (fun p => p.2.exits.all (fun e => isKeyOf w e.2))

/-- The static structure of a world: its keys together with the exit table of
each island (everything except the mutable item lists and the descriptions). -/
def structOf (w : List (String × Island)) : List (String × List (String × String)) :=
  w.map (fun p => (p.1, p.2.exits))

/-- The command line is a Move: its first token, lowercased, is `go`/`move`
or a bare direction token (the two movement branches of `handle_command`). -/
def MoveCmd (cmd : String) : Prop :=
  ∃ v args, tokensOf cmd = v :: args ∧
    ((lowerStr v = "go" ∨ lowerStr v = "move") ∨
      (lowerStr v = "n" ∨ lowerStr v = "s" ∨ lowerStr v = "e" ∨ lowerStr v = "w" ∨
        lowerStr v = "north" ∨ lowerStr v = "south" ∨ lowerStr v = "east" ∨
        lowerStr v = "west"))

/-- Predicate stating `handle_take` on these arguments would succeed: a nonempty argument list,
a current location that is a key of the world, and at least one item there
matching the argument string. -/
def TakeWouldSucceed (s : GameState) (args : List String) : Prop :=
  ∃ a rest island f fs, args = a :: rest ∧
    lookupIsland s.world s.player.location = some island ∧
    island.items.filter (matchesItem (lowerStr (String.intercalate " " args))) = f :: fs

/-- The command line is a Take that succeeds in state `s`. -/
def TakeSuccessCmd (s : GameState) (cmd : String) : Prop :=
  ∃ v args, tokensOf cmd = v :: args ∧
    (lowerStr v = "take" ∨ lowerStr v = "get" ∨ lowerStr v = "pick") ∧
    TakeWouldSucceed s args

/-- The island stored under "Doubloon Point" in `WORLD` (used as a concrete
test fixture). -/
def dpIsland : Island :=
  { name := "Doubloon Point",
    description := "A rocky spit with tide pools full of tiny stars. A coin winks in the foam.",
    items := ["doubloon"],
    exits := [("west", "Cutlass Bay")] }

/-- A concrete state: the fresh world with the player standing at
Doubloon Point with an empty inventory. -/
def dpState : GameState :=
  { world := WORLD, player := { location := "Doubloon Point", inventory := [] } }

/-- A concrete reachable state: collect the compass at Blackwater Cay and
sail to Cutlass Bay.  The player carries ["compass"] and stands where the
cutlass lies. -/
def cexState : GameState := runCommands ["e", "e", "take compass", "s", "w", "s"]

/-! ## Helper lemmas -/

/-- A filter that returns `f :: fs` splits the list at the first element
satisfying `p`. -/
theorem filter_split {α : Type} (p : α → Bool) :
    ∀ (l : List α) (f : α) (fs : List α), l.filter p = f :: fs →
      ∃ pre post, l = pre ++ f :: post ∧ (∀ x ∈ pre, p x = false) ∧ p f = true := by
  intro l
  induction l with
  | nil => intro f fs h; simp at h
  | cons x xs ih =>
    intro f fs h
    rw [List.filter_cons] at h
    by_cases hx : p x = true
    · rw [if_pos hx] at h
      injection h with h1 h2
      subst h1
      refine ⟨[], xs, rfl, ?_, hx⟩
      intro y hy
      cases hy
    · rw [if_neg hx] at h
      obtain ⟨pre, post, hsplit, hpre, hf⟩ := ih f fs h
      refine ⟨x :: pre, post, by rw [hsplit]; rfl, ?_, hf⟩
      intro y hy
      rcases List.mem_cons.mp hy with hy | hy
      · subst hy; exact Bool.not_eq_true _ ▸ eq_false_of_ne_true hx
      · exact hpre y hy

/-- Updating the entry found by lookup changes exactly what lookup returns. -/
theorem lookupIsland_updateIsland_self (w : List (String × Island)) (key : String)
    (f : Island → Island) (isl : Island) (h : lookupIsland w key = some isl) :
    lookupIsland (updateIsland w key f) key = some (f isl) := by
  induction w with
  | nil => simp [lookupIsland] at h
  | cons p rest ih =>
    obtain ⟨k, i⟩ := p
    by_cases hk : k = key
    · subst hk
      simp [lookupIsland] at h
      subst h
      simp [updateIsland, lookupIsland]
    · simp [lookupIsland, hk] at h
      simp [updateIsland, lookupIsland, hk]
      exact ih h

/-- Updating under one key does not affect lookups under another key. -/
theorem lookupIsland_updateIsland_ne (w : List (String × Island)) (key k2 : String)
    (f : Island → Island) (h : k2 ≠ key) :
    lookupIsland (updateIsland w key f) k2 = lookupIsland w k2 := by
  induction w with
  | nil => rfl
  | cons p rest ih =>
    obtain ⟨k, i⟩ := p
    by_cases hk : k = key
    · subst hk
      have : ¬(k = k2) := fun he => h (he ▸ rfl)
      simp [updateIsland, lookupIsland, this]
    · by_cases hk2 : k = k2
      · subst hk2
        simp [updateIsland, lookupIsland, hk]
      · simp [updateIsland, lookupIsland, hk, hk2]
        exact ih

/-- How the per-location occurrence total changes under an island update. -/
theorem locCount_updateIsland (w : List (String × Island)) (key : String)
    (f : Island → Island) (isl : Island) (n : String)
    (h : lookupIsland w key = some isl) :
    locCount (updateIsland w key f) n + isl.items.count n
      = locCount w n + ((f isl).items.count n) := by
  induction w with
  | nil => simp [lookupIsland] at h
  | cons p rest ih =>
    obtain ⟨k, i⟩ := p
    by_cases hk : k = key
    · subst hk
      simp [lookupIsland] at h
      subst h
      simp [updateIsland, locCount]
      omega
    · simp [lookupIsland, hk] at h
      have := ih h
      simp [updateIsland, locCount, hk] at this ⊢
      omega

/-- A successful lookup means the (key, island) pair is an entry. -/
theorem lookupIsland_mem : ∀ (w : List (String × Island)) (k : String) (isl : Island),
    lookupIsland w k = some isl → (k, isl) ∈ w := by
  intro w
  induction w with
  | nil => intro k isl h; simp [lookupIsland] at h
  | cons p rest ih =>
    intro k isl h
    obtain ⟨k1, i1⟩ := p
    by_cases hk : k1 = k
    · subst hk
      simp [lookupIsland] at h
      subst h
      exact List.mem_cons_self _ _
    · simp [lookupIsland, hk] at h
      exact List.mem_cons_of_mem _ (ih k isl h)

/-- A successful exit lookup means the (direction, destination) pair is one
of the exits. -/
theorem lookupExit_mem : ∀ (ex : List (String × String)) (d dest : String),
    lookupExit ex d = some dest → (d, dest) ∈ ex := by
  intro ex
  induction ex with
  | nil => intro d dest h; simp [lookupExit] at h
  | cons p rest ih =>
    intro d dest h
    obtain ⟨d1, t1⟩ := p
    by_cases hd : d1 = d
    · subst hd
      simp [lookupExit] at h
      subst h
      exact List.mem_cons_self _ _
    · simp [lookupExit, hd] at h
      exact List.mem_cons_of_mem _ (ih d dest h)

/-- In a closed world, following any exit of any island lands on a key. -/
theorem worldClosed_spec (w : List (String × Island)) (hw : worldClosed w = true)
    (k : String) (isl : Island) (d dest : String)
    (hl : lookupIsland w k = some isl) (he : lookupExit isl.exits d = some dest) :
    isKeyOf w dest = true := by
  have hm := lookupIsland_mem w k isl hl
  have hm2 := lookupExit_mem isl.exits d dest he
  unfold worldClosed at hw
  rw [List.all_eq_true] at hw
  have h3 := hw (k, isl) hm
  rw [List.all_eq_true] at h3
  exact h3 (d, dest) hm2

/-- Updates that keep the exits of an island keep the world structure. -/
theorem structOf_updateIsland (w : List (String × Island)) (key : String)
    (f : Island → Island) (hf : ∀ isl, (f isl).exits = isl.exits) :
    structOf (updateIsland w key f) = structOf w := by
  induction w with
  | nil => rfl
  | cons p rest ih =>
    obtain ⟨k, i⟩ := p
    by_cases hk : k = key
    · subst hk
      simp [updateIsland, structOf, hf]
    · simp [updateIsland, structOf, hk] at ih ⊢
      exact ih

/-- Worlds with the same structure give lookups with the same key success
and the same exit tables. -/
theorem lookupIsland_exits_congr : ∀ (w1 w2 : List (String × Island)),
    structOf w1 = structOf w2 → ∀ k,
      (lookupIsland w1 k).map Island.exits = (lookupIsland w2 k).map Island.exits := by
  intro w1
  induction w1 with
  | nil =>
    intro w2 h k
    have : w2 = [] := by
      cases w2 with
      | nil => rfl
      | cons q qs => simp [structOf] at h
    subst this
    rfl
  | cons p rest ih =>
    intro w2 h k
    obtain ⟨k1, i1⟩ := p
    cases w2 with
    | nil => simp [structOf] at h
    | cons q qs =>
      obtain ⟨k2, i2⟩ := q
      simp [structOf] at h
      obtain ⟨⟨hk12, hex⟩, hrest⟩ := h
      subst hk12
      by_cases hk : k1 = k
      · subst hk
        simp [lookupIsland, hex]
      · simp [lookupIsland, hk]
        exact ih qs hrest k

/-- Worlds with the same structure have the same keys. -/
theorem isKeyOf_congr (w1 w2 : List (String × Island))
    (h : structOf w1 = structOf w2) (k : String) :
    isKeyOf w1 k = isKeyOf w2 k := by
  have hm := lookupIsland_exits_congr w1 w2 h k
  unfold isKeyOf
  cases h1 : lookupIsland w1 k with
  | none =>
    cases h2 : lookupIsland w2 k with
    | none => rfl
    | some i2 => rw [h1, h2] at hm; simp at hm
  | some i1 =>
    cases h2 : lookupIsland w2 k with
    | none => rw [h1, h2] at hm; simp at hm
    | some i2 => rfl

/-- Removing one occurrence of a present element and adding one occurrence
back leaves the occurrence count of every name unchanged. -/
theorem count_erase_add (l : List String) (a n : String) (h : a ∈ l) :
    (l.erase a).count n + ([a].count n) = l.count n := by
  by_cases hn : n = a
  · subst hn
    have h1 : 0 < l.count n := List.count_pos_iff.mpr h
    rw [List.count_erase_self]
    simp
    omega
  · rw [List.count_erase_of_ne hn]
    simp [List.count_cons]
    intro he
    exact absurd he.symm hn

/-- Function `handle_go` never changes the world or the inventory. -/
theorem handle_go_effects (s : GameState) (args : List String) :
    (handle_go s args).1.world = s.world ∧
      (handle_go s args).1.player.inventory = s.player.inventory := by
  unfold handle_go
  split
  · exact ⟨rfl, rfl⟩
  · split
    · exact ⟨rfl, rfl⟩
    · split
      · exact ⟨rfl, rfl⟩
      · split
        · exact ⟨rfl, rfl⟩
        · exact ⟨rfl, rfl⟩

/-- Function `totalCount` only looks at the world and the inventory. -/
theorem totalCount_congr (s1 s2 : GameState) (hw : s1.world = s2.world)
    (hi : s1.player.inventory = s2.player.inventory) (n : String) :
    totalCount s1 n = totalCount s2 n := by
  simp [totalCount, hw, hi]

/-- Function `handle_take` conserves the total occurrence count of every item name. -/
theorem totalCount_handle_take (s : GameState) (args : List String) (n : String) :
    totalCount (handle_take s args).1 n = totalCount s n := by
  unfold handle_take
  split
  · rfl
  · split
    · rfl
    · next island heq =>
      split
      · rfl
      · next found fs hfil =>
        have hmem : found ∈ island.items :=
          List.mem_of_mem_filter (hfil ▸ List.mem_cons_self found fs)
        have hcount := locCount_updateIsland s.world s.player.location
          (fun isl => { isl with items := isl.items.erase found }) island n heq
        have hadd := count_erase_add island.items found n hmem
        split
        all_goals
          simp only [totalCount, List.count_append] at hcount hadd ⊢
          omega

/-- Function `handle_drop` conserves the total occurrence count of every item name. -/
theorem totalCount_handle_drop (s : GameState) (args : List String) (n : String) :
    totalCount (handle_drop s args).1 n = totalCount s n := by
  unfold handle_drop
  split
  · rfl
  · split
    · rfl
    · next found fs hfil =>
      split
      · rfl
      · next island heq =>
        have hmem : found ∈ s.player.inventory :=
          List.mem_of_mem_filter (hfil ▸ List.mem_cons_self found fs)
        have hcount := locCount_updateIsland s.world s.player.location
          (fun isl => { isl with items := isl.items ++ [found] }) island n heq
        have hadd := count_erase_add s.player.inventory found n hmem
        simp only [totalCount, List.count_append] at hcount hadd ⊢
        omega

/-- One `handle_command` invocation conserves the total occurrence count of
every item name across all containers. -/
theorem totalCount_stepCommand (s : GameState) (c : String) (n : String) :
    totalCount (stepCommand s c) n = totalCount s n := by
  unfold stepCommand handle_command
  split
  · rfl
  · next v args heq =>
    split_ifs
    · exact totalCount_congr _ s (handle_go_effects s args).1 (handle_go_effects s args).2 n
    · exact totalCount_congr _ s (handle_go_effects s [lowerStr v]).1
        (handle_go_effects s [lowerStr v]).2 n
    · rfl
    · exact totalCount_handle_take s args n
    · exact totalCount_handle_drop s args n
    · rfl
    · rfl
    · rfl
    · rfl

/-- A whole command sequence conserves the total occurrence count of every
item name. -/
theorem totalCount_runFrom (cmds : List String) : ∀ (s : GameState) (n : String),
    totalCount (runFrom s cmds) n = totalCount s n := by
  induction cmds with
  | nil => intro s n; rfl
  | cons c cs ih =>
    intro s n
    rw [runFrom, List.foldl_cons]
    have h2 := ih (stepCommand s c) n
    rw [runFrom] at h2
    rw [h2, totalCount_stepCommand]

/-- C1: starting from the initial state, after any sequence of
`handle_command` invocations, every item name that has appeared in the world
(that is, every name present in the static `WORLD`) occurs in exactly one
container — the grand total of its occurrences over all location item lists
plus the inventory is exactly one, so it is in the list of some location or in the
inventory, never in both and never in neither. -/
theorem C1_single_ownership (cmds : List String) (name : String)
    (h : name ∈ allInitialItems) :
    totalCount (runCommands cmds) name = 1 := by
  rw [runCommands, totalCount_runFrom]
  simp only [allInitialItems, WORLD, List.map_cons, List.map_nil, List.flatten,
    List.append_nil, List.mem_append, List.mem_cons, List.mem_singleton,
    List.not_mem_nil, or_false] at h
  rcases h with h | h | h | h | h | h | h <;> subst h <;> decide

/-- Witness for C1 at a concrete run: after sailing east, taking the
spyglass and sailing back, the spyglass occurs exactly once in the world. -/
theorem C1_single_ownership_witness :
    "spyglass" ∈ allInitialItems ∧
      totalCount (runCommands ["e", "take spyglass", "w"]) "spyglass" = 1 :=
  ⟨by decide, C1_single_ownership ["e", "take spyglass", "w"] "spyglass" (by decide)⟩

/-- Function `handle_take` never changes the world structure (keys and exit tables). -/
theorem structOf_handle_take (s : GameState) (args : List String) :
    structOf (handle_take s args).1.world = structOf s.world := by
  unfold handle_take
  split
  · rfl
  · split
    · rfl
    · split
      · rfl
      · split
        · exact structOf_updateIsland s.world s.player.location _ (fun isl => rfl)
        · exact structOf_updateIsland s.world s.player.location _ (fun isl => rfl)

/-- Function `handle_drop` never changes the world structure (keys and exit tables). -/
theorem structOf_handle_drop (s : GameState) (args : List String) :
    structOf (handle_drop s args).1.world = structOf s.world := by
  unfold handle_drop
  split
  · rfl
  · split
    · rfl
    · split
      · rfl
      · exact structOf_updateIsland s.world s.player.location _ (fun isl => rfl)

/-- Functions `handle_take` and `handle_drop` never change the location of the player. -/
theorem location_handle_take (s : GameState) (args : List String) :
    (handle_take s args).1.player.location = s.player.location := by
  unfold handle_take
  split
  · rfl
  · split
    · rfl
    · split
      · rfl
      · split
        · rfl
        · rfl

theorem location_handle_drop (s : GameState) (args : List String) :
    (handle_drop s args).1.player.location = s.player.location := by
  unfold handle_drop
  split
  · rfl
  · split
    · rfl
    · split
      · rfl
      · rfl

/-- After `handle_go` on a world with the structure of `WORLD`, the player is
still on a location that names an island of `WORLD`. -/
theorem handle_go_location_valid (s : GameState) (args : List String)
    (hstruct : structOf s.world = structOf WORLD)
    (hloc : isKeyOf WORLD s.player.location = true) :
    isKeyOf WORLD (handle_go s args).1.player.location = true := by
  unfold handle_go
  split
  · exact hloc
  · split
    · exact hloc
    · next direction hdir =>
      split
      · exact hloc
      · next island heq =>
        split
        · exact hloc
        · next dest heq2 =>
          have hmap := lookupIsland_exits_congr s.world WORLD hstruct s.player.location
          rw [heq] at hmap
          cases hW : lookupIsland WORLD s.player.location with
          | none => rw [hW] at hmap; simp at hmap
          | some isl0 =>
            rw [hW] at hmap
            simp only [Option.map_some'] at hmap
            injection hmap with hex
            have he0 : lookupExit isl0.exits direction = some dest := by
              rw [← hex]; exact heq2
            exact worldClosed_spec WORLD (by decide) s.player.location isl0
              direction dest hW he0

/-- One `handle_command` invocation preserves the world structure and keeps
the location of the player a key of `WORLD`. -/
theorem stepCommand_invariant (s : GameState) (c : String)
    (hstruct : structOf s.world = structOf WORLD)
    (hloc : isKeyOf WORLD s.player.location = true) :
    structOf (stepCommand s c).world = structOf WORLD ∧
      isKeyOf WORLD (stepCommand s c).player.location = true := by
  unfold stepCommand handle_command
  split
  · exact ⟨hstruct, hloc⟩
  · next v args heq =>
    split_ifs
    · exact ⟨(handle_go_effects s args).1 ▸ hstruct,
        handle_go_location_valid s args hstruct hloc⟩
    · exact ⟨(handle_go_effects s [lowerStr v]).1 ▸ hstruct,
        handle_go_location_valid s [lowerStr v] hstruct hloc⟩
    · exact ⟨hstruct, hloc⟩
    · exact ⟨(structOf_handle_take s args).symm ▸ hstruct,
        (location_handle_take s args).symm ▸ hloc⟩
    · exact ⟨(structOf_handle_drop s args).symm ▸ hstruct,
        (location_handle_drop s args).symm ▸ hloc⟩
    · exact ⟨hstruct, hloc⟩
    · exact ⟨hstruct, hloc⟩
    · exact ⟨hstruct, hloc⟩
    · exact ⟨hstruct, hloc⟩

/-- The invariant of `stepCommand_invariant` is preserved along any command
sequence. -/
theorem runFrom_invariant (cmds : List String) : ∀ s : GameState,
    structOf s.world = structOf WORLD → isKeyOf WORLD s.player.location = true →
    structOf (runFrom s cmds).world = structOf WORLD ∧
      isKeyOf WORLD (runFrom s cmds).player.location = true := by
  induction cmds with
  | nil => intro s h1 h2; exact ⟨h1, h2⟩
  | cons c cs ih =>
    intro s h1 h2
    rw [runFrom, List.foldl_cons]
    have hstep := stepCommand_invariant s c h1 h2
    have h3 := ih (stepCommand s c) hstep.1 hstep.2
    rw [runFrom] at h3
    exact h3

/-- C7: every exit destination in the static `WORLD` mapping is itself a key
of `WORLD`, and consequently in every reachable state of a session — the
player starts at Pirate Cove and is only ever moved to an exit target — the
location of the player is a valid key of `WORLD`. -/
theorem C7_world_closed_location_valid :
    worldClosed WORLD = true ∧
      ∀ cmds : List String, isKeyOf WORLD (runCommands cmds).player.location = true := by
  refine ⟨by decide, fun cmds => ?_⟩
  exact (runFrom_invariant cmds initState rfl (by decide)).2

/-- C3: `Player.has_all_treasure` returns true iff every name of the fixed
treasure set {cutlass, compass, doubloon, rum, spyglass, map piece} occurs in
the inventory list — a pure membership condition, so it is independent of the
ordering of the inventory and of any additional non-treasure items. -/
theorem C3_has_all_treasure_iff (p : Player) :
    p.has_all_treasure = true ↔
      ("cutlass" ∈ p.inventory ∧ "compass" ∈ p.inventory ∧ "doubloon" ∈ p.inventory ∧
        "rum" ∈ p.inventory ∧ "spyglass" ∈ p.inventory ∧ "map piece" ∈ p.inventory) := by
  simp [Player.has_all_treasure, TREASURE_ITEMS]

/-- C5: the three rejected forms of a Move — missing argument, unparseable
direction token, and no exit in the resolved direction — leave the whole
state unchanged, and the three rejection messages are pairwise distinct. -/
theorem C5_move_rejections (s : GameState) (args : List String) :
    (args = [] → handle_go s args = (s, [Msg.goWhere])) ∧
    (∀ a rest, args = a :: rest → parse_direction a = none →
      handle_go s args = (s, [Msg.notADirection])) ∧
    (∀ a rest direction island, args = a :: rest → parse_direction a = some direction →
      lookupIsland s.world s.player.location = some island →
      lookupExit island.exits direction = none →
      handle_go s args = (s, [Msg.noPassage])) ∧
    (Msg.goWhere ≠ Msg.notADirection ∧ Msg.goWhere ≠ Msg.noPassage ∧
      Msg.notADirection ≠ Msg.noPassage) := by
  refine ⟨?_, ?_, ?_, by decide, by decide, by decide⟩
  · rintro rfl; rfl
  · rintro a rest rfl hdir
    unfold handle_go
    simp [hdir]
  · rintro a rest direction island rfl hdir hisl hexit
    unfold handle_go
    simp [hdir, hisl, hexit]

/-- Witness for C5 at concrete inputs: at Doubloon Point, `go` with no
argument, `go x`, and `go north` (no north exit there) are each rejected
with the expected message and an unchanged state. -/
theorem C5_move_rejections_witness :
    handle_go dpState [] = (dpState, [Msg.goWhere]) ∧
      (parse_direction "x" = none ∧
        handle_go dpState ["x"] = (dpState, [Msg.notADirection])) ∧
      (parse_direction "north" = some "north" ∧
        lookupIsland dpState.world dpState.player.location = some dpIsland ∧
        lookupExit dpIsland.exits "north" = none ∧
        handle_go dpState ["north"] = (dpState, [Msg.noPassage])) :=
  ⟨(C5_move_rejections dpState []).1 rfl,
    ⟨by decide, (C5_move_rejections dpState ["x"]).2.1 "x" [] rfl (by decide)⟩,
    ⟨by decide, by decide, by decide,
      (C5_move_rejections dpState ["north"]).2.2.1 "north" [] "north" dpIsland rfl
        (by decide) (by decide) (by decide)⟩⟩

/-- C6: a Take whose argument matches no item at the current location, and a
Drop whose argument matches no carried item, each return the state unchanged
(the item list of every location, the inventory and the location are untouched). -/
theorem C6_rejected_take_drop (s : GameState) (args : List String) :
    (∀ island, args ≠ [] →
      lookupIsland s.world s.player.location = some island →
      island.items.filter (matchesItem (lowerStr (String.intercalate " " args))) = [] →
      handle_take s args = (s, [Msg.dontSeeThat])) ∧
    (args ≠ [] →
      s.player.inventory.filter (matchesItem (lowerStr (String.intercalate " " args))) = [] →
      handle_drop s args = (s, [Msg.notCarrying])) := by
  constructor
  · intro island hne hisl hfil
    unfold handle_take
    cases args with
    | nil => exact absurd rfl hne
    | cons a rest => simp [hisl, hfil]
  · intro hne hfil
    unfold handle_drop
    cases args with
    | nil => exact absurd rfl hne
    | cons a rest => simp [hfil]

/-- Witness for C6 at a concrete input: at Doubloon Point (items
["doubloon"], empty inventory) `take cutlass` and `drop cutlass` are both
rejected with the state unchanged. -/
theorem C6_rejected_take_drop_witness :
    (lookupIsland dpState.world dpState.player.location = some dpIsland ∧
      dpIsland.items.filter (matchesItem (lowerStr (String.intercalate " " ["cutlass"]))) = [] ∧
      handle_take dpState ["cutlass"] = (dpState, [Msg.dontSeeThat])) ∧
    (dpState.player.inventory.filter (matchesItem (lowerStr (String.intercalate " " ["cutlass"]))) = [] ∧
      handle_drop dpState ["cutlass"] = (dpState, [Msg.notCarrying])) :=
  ⟨⟨by decide, by decide,
      (C6_rejected_take_drop dpState ["cutlass"]).1 dpIsland (by decide) (by decide) (by decide)⟩,
    ⟨by decide,
      (C6_rejected_take_drop dpState ["cutlass"]).2 (by decide) (by decide)⟩⟩

/-- C4: a successful Take selects the first item (in the items order of the
location) whose name contains the argument as a case-insensitive substring:
the list of the location splits as `pre ++ f :: post` with no match in `pre`,
exactly that occurrence is removed from the list of the location (other locations
untouched), and `f` is appended to the end of the inventory. -/
theorem C4_take_first_match (s : GameState) (args : List String) (island : Island)
    (f : String) (fs : List String)
    (hargs : args ≠ [])
    (hisl : lookupIsland s.world s.player.location = some island)
    (hms : island.items.filter (matchesItem (lowerStr (String.intercalate " " args))) = f :: fs) :
    ∃ pre post,
      island.items = pre ++ f :: post ∧
      (∀ x ∈ pre, matchesItem (lowerStr (String.intercalate " " args)) x = false) ∧
      matchesItem (lowerStr (String.intercalate " " args)) f = true ∧
      lookupIsland (handle_take s args).1.world s.player.location =
        some { island with items := pre ++ post } ∧
      (∀ k, k ≠ s.player.location →
        lookupIsland (handle_take s args).1.world k = lookupIsland s.world k) ∧
      (handle_take s args).1.player.inventory = s.player.inventory ++ [f] ∧
      (handle_take s args).1.player.location = s.player.location := by
  obtain ⟨pre, post, hsplit, hpre, hf⟩ :=
    filter_split (matchesItem (lowerStr (String.intercalate " " args))) island.items f fs hms
  have hfnotpre : f ∉ pre := by
    intro hmem
    rw [hpre f hmem] at hf
    cases hf
  have herase : island.items.erase f = pre ++ post := by
    rw [hsplit, List.erase_append_right _ hfnotpre, List.erase_cons_head]
  have hstate : (handle_take s args).1 =
      { s with
        world := updateIsland s.world s.player.location
          (fun isl => { isl with items := isl.items.erase f }),
        player := { s.player with inventory := s.player.inventory ++ [f] } } := by
    cases args with
    | nil => exact absurd rfl hargs
    | cons a rest =>
      unfold handle_take
      simp only [hisl, hms]
      split_ifs <;> rfl
  refine ⟨pre, post, hsplit, hpre, hf, ?_, ?_, ?_, ?_⟩
  · rw [hstate]
    have := lookupIsland_updateIsland_self s.world s.player.location
      (fun isl => { isl with items := isl.items.erase f }) island hisl
    rw [this]
    simp [herase]
  · intro k hk
    rw [hstate]
    exact lookupIsland_updateIsland_ne s.world s.player.location k _ hk
  · rw [hstate]
  · rw [hstate]

/-- Witness for C4 at a concrete input: `take doubloon` at Doubloon Point
picks the doubloon (first and only match), empties the item list of the island
and appends "doubloon" to the inventory. -/
theorem C4_take_first_match_witness :
    (["doubloon"] : List String) ≠ [] ∧
      lookupIsland dpState.world dpState.player.location = some dpIsland ∧
      dpIsland.items.filter (matchesItem (lowerStr (String.intercalate " " ["doubloon"]))) = ["doubloon"] ∧
      ∃ pre post,
        dpIsland.items = pre ++ "doubloon" :: post ∧
        (∀ x ∈ pre, matchesItem (lowerStr (String.intercalate " " ["doubloon"])) x = false) ∧
        matchesItem (lowerStr (String.intercalate " " ["doubloon"])) "doubloon" = true ∧
        lookupIsland (handle_take dpState ["doubloon"]).1.world dpState.player.location =
          some { dpIsland with items := pre ++ post } ∧
        (∀ k, k ≠ dpState.player.location →
          lookupIsland (handle_take dpState ["doubloon"]).1.world k =
            lookupIsland dpState.world k) ∧
        (handle_take dpState ["doubloon"]).1.player.inventory =
          dpState.player.inventory ++ ["doubloon"] ∧
        (handle_take dpState ["doubloon"]).1.player.location = dpState.player.location :=
  ⟨by decide, by decide, by decide,
    C4_take_first_match dpState ["doubloon"] dpIsland "doubloon" []
      (by decide) (by decide) (by decide)⟩

/-- Function `handle_go` itself never prints the victory announcement. -/
theorem victory_not_mem_handle_go (s : GameState) (args : List String) :
    Msg.victory ∉ (handle_go s args).2 := by
  unfold handle_go
  split
  · simp
  · split
    · simp
    · split
      · simp
      · split
        · simp
        · simp [show_location]

/-- Function `handle_drop` never prints the victory announcement. -/
theorem victory_not_mem_handle_drop (s : GameState) (args : List String) :
    Msg.victory ∉ (handle_drop s args).2 := by
  unfold handle_drop
  split
  · simp
  · split
    · simp
    · split
      · simp
      · simp

/-- Function `handle_inventory` never prints the victory announcement (the
trove-complete message is a distinct event). -/
theorem victory_not_mem_handle_inventory (s : GameState) :
    Msg.victory ∉ handle_inventory s := by
  unfold handle_inventory
  split_ifs <;> simp

/-- Function `check_victory_on_move` prints the victory announcement exactly when the
player stands at Pirate Cove with the full trove. -/
theorem victory_mem_check_iff (s : GameState) :
    Msg.victory ∈ check_victory_on_move s ↔
      (s.player.location = "Pirate Cove" ∧ s.player.has_all_treasure = true) := by
  unfold check_victory_on_move
  split_ifs with h
  · simp [h]
  · simp [h]

/-- Function `handle_take` prints the victory announcement exactly when the take
succeeds and afterwards the player stands at Pirate Cove with the full
trove. -/
theorem victory_mem_handle_take_iff (s : GameState) (args : List String) :
    Msg.victory ∈ (handle_take s args).2 ↔
      (TakeWouldSucceed s args ∧
        (handle_take s args).1.player.location = "Pirate Cove" ∧
        Player.has_all_treasure (handle_take s args).1.player = true) := by
  unfold handle_take TakeWouldSucceed
  split
  · simp
  · next a rest =>
    split
    · next hlook => simp [hlook]
    · next island hlook =>
      split
      · next hfil => simp [hlook, hfil]
      · next found tail hfil =>
        split_ifs with hc
        · exact ⟨fun _ => ⟨⟨a, rest, island, found, tail, rfl, hlook, hfil⟩, hc.2, hc.1⟩,
            fun _ => by simp⟩
        · constructor
          · intro h
            simp at h
          · rintro ⟨-, hl, ht⟩
            exact absurd ⟨ht, hl⟩ hc

/-- C2: the victory announcement is emitted by `handle_command` iff the
command is a Move (checked even after rejected moves) or a successful Take,
and in the resulting state the player is at "Pirate Cove" with
`has_all_treasure` — there is no persistent won flag, so the announcement
recurs on every qualifying command and is emitted nowhere else. -/
theorem C2_victory_iff (s : GameState) (cmd : String) :
    Msg.victory ∈ (handle_command s cmd).2.2 ↔
      ((MoveCmd cmd ∨ TakeSuccessCmd s cmd) ∧
        (handle_command s cmd).2.1.player.location = "Pirate Cove" ∧
        Player.has_all_treasure (handle_command s cmd).2.1.player = true) := by
  unfold handle_command MoveCmd TakeSuccessCmd
  split
  · next heq => simp [heq]
  · next v args heq =>
    split_ifs with h1 h2 h3 h4 h5 h6 h7 h8
    · rcases h1 with h | h <;>
        simp [List.mem_append, victory_not_mem_handle_go, victory_mem_check_iff, heq, h]
    · rcases h2 with h | h | h | h | h | h | h | h <;>
        simp [List.mem_append, victory_not_mem_handle_go, victory_mem_check_iff, heq, h]
    · rcases h3 with h | h <;> simp [show_location, heq, h]
    · rcases h4 with h | h | h <;> simp [victory_mem_handle_take_iff, heq, h, and_assoc]
    · simp [victory_not_mem_handle_drop, heq, h5]
    · rcases h6 with h | h | h | h <;> simp [victory_not_mem_handle_inventory, heq, h]
    · rcases h7 with h | h | h <;> simp [heq, h]
    · rcases h8 with h | h <;> simp [heq, h]
    · simp [heq, h1, h2, h4]

/-- C8: `handle_command` signals loop termination (returns `false` as its
first component) iff the first token of the line, lowercased, is "quit" or
"exit"; every other line — empty, unrecognized, or any rejected action —
returns the continue value. -/
theorem C8_quit_iff (s : GameState) (cmd : String) :
    (handle_command s cmd).1 = false ↔
      ∃ v args, tokensOf cmd = v :: args ∧ (lowerStr v = "quit" ∨ lowerStr v = "exit") := by
  unfold handle_command
  split
  · next heq => simp [heq]
  · next v args heq =>
    split_ifs with h1 h2 h3 h4 h5 h6 h7 h8
    · rcases h1 with h | h <;> simp [heq, h]
    · rcases h2 with h | h | h | h | h | h | h | h <;> simp [heq, h]
    · rcases h3 with h | h <;> simp [heq, h]
    · rcases h4 with h | h | h <;> simp [heq, h]
    · simp [heq, h5]
    · rcases h6 with h | h | h | h <;> simp [heq, h]
    · rcases h7 with h | h | h <;> simp [heq, h]
    · rcases h8 with h | h <;> simp [heq, h]
    · simp [heq, h8]

/-- Tokenizing an all-whitespace character list yields no tokens. -/
theorem splitWsAux_nil_of_all_ws : ∀ l : List Char, (∀ c ∈ l, c.isWhitespace = true) →
    splitWsAux [] l = [] := by
  intro l
  induction l with
  | nil => intro _; rfl
  | cons c rest ih =>
    intro h
    have hc := h c (List.mem_cons_self c rest)
    unfold splitWsAux
    rw [if_pos hc]
    simp only [List.isEmpty_nil, if_pos rfl, List.nil_append]
    exact ih (fun x hx => h x (List.mem_cons_of_mem c hx))

/-- C9: an input line that is empty or consists only of whitespace is a
no-op — `handle_command` returns the continue value, the unchanged state,
and no output. -/
theorem C9_blank_line_noop (s : GameState) (cmd : String)
    (h : ∀ c ∈ cmd.data, c.isWhitespace = true) :
    handle_command s cmd = (true, s, []) := by
  unfold handle_command
  rw [show tokensOf cmd = [] from splitWsAux_nil_of_all_ws cmd.data h]

/-- Witness for C9 at a concrete input: a line of one space and one tab. -/
theorem C9_blank_line_noop_witness :
    (∀ c ∈ (" \t ").data, c.isWhitespace = true) ∧
      handle_command initState " \t " = (true, initState, []) :=
  ⟨by decide, C9_blank_line_noop initState " \t " (by decide)⟩

/-- Readding an erased element at the end keeps membership, provided the
element was present. -/
theorem mem_erase_append_self (l : List String) (a : String) (h : a ∈ l) :
    ∀ x, x ∈ l.erase a ++ [a] ↔ x ∈ l := by
  intro x
  by_cases hx : x = a
  · subst hx
    simp [h]
  · simp [List.mem_append, List.mem_erase_of_ne hx, hx]

/-- Erasing an element just appended at the end gives back (up to
membership) the original list. -/
theorem mem_append_singleton_erase (l : List String) (a : String) :
    ∀ x, x ∈ (l ++ [a]).erase a ↔ x ∈ l := by
  intro x
  by_cases hmem : a ∈ l
  · rw [List.erase_append_left _ hmem]
    exact mem_erase_append_self l a hmem x
  · rw [List.erase_append_right _ hmem]
    simp

/-- C10 as frozen is false on the code: in the reachable state `cexState`
(inventory ["compass"], standing at Cutlass Bay where the cutlass lies),
`take cutlass` succeeds taking X = "cutlass", and the drop argument "s"
matches X as a case-insensitive substring — yet the drop removes "compass"
(the first inventory match), so ownership is not restored: "compass" leaves
the inventory and ends up at Cutlass Bay. -/
theorem C10_counterexample :
    cexState.player.location = "Cutlass Bay" ∧
      cexState.player.inventory = ["compass"] ∧
      (handle_take cexState ["cutlass"]).2 = [Msg.youTake "cutlass"] ∧
      matchesItem (lowerStr (String.intercalate " " ["s"])) "cutlass" = true ∧
      (handle_drop (handle_take cexState ["cutlass"]).1 ["s"]).2 = [Msg.youDrop "compass"] ∧
      ("compass" ∈ cexState.player.inventory ∧
        "compass" ∉ (handle_drop (handle_take cexState ["cutlass"]).1 ["s"]).1.player.inventory) := by
  decide

/-- C10 (amended): if the Take selects `f` and the immediately following
Drop has `f` itself as its first inventory match, then the round trip restores
ownership: the location is unchanged, the inventory has the same members as
before the Take, the entry of every other location is untouched, and the current
location holds its original items up to moving `f` to the end of the list. -/
theorem C10_take_then_drop_restores (s : GameState) (targs dargs : List String)
    (island : Island) (f : String) (fs gs : List String)
    (htargs : targs ≠ []) (hdargs : dargs ≠ [])
    (hisl : lookupIsland s.world s.player.location = some island)
    (hms : island.items.filter (matchesItem (lowerStr (String.intercalate " " targs))) = f :: fs)
    (hdm : (handle_take s targs).1.player.inventory.filter
        (matchesItem (lowerStr (String.intercalate " " dargs))) = f :: gs) :
    ((handle_drop (handle_take s targs).1 dargs).1.player.location = s.player.location) ∧
      (∀ x, x ∈ (handle_drop (handle_take s targs).1 dargs).1.player.inventory ↔
        x ∈ s.player.inventory) ∧
      (∀ k, k ≠ s.player.location →
        lookupIsland (handle_drop (handle_take s targs).1 dargs).1.world k =
          lookupIsland s.world k) ∧
      (lookupIsland (handle_drop (handle_take s targs).1 dargs).1.world s.player.location =
        some { island with items := island.items.erase f ++ [f] }) ∧
      (∀ x, x ∈ island.items.erase f ++ [f] ↔ x ∈ island.items) := by
  have hfmem : f ∈ island.items :=
    List.mem_of_mem_filter (hms ▸ List.mem_cons_self f fs)
  have hstate : (handle_take s targs).1 =
      { s with
        world := updateIsland s.world s.player.location
          (fun isl => { isl with items := isl.items.erase f }),
        player := { s.player with inventory := s.player.inventory ++ [f] } } := by
    cases targs with
    | nil => exact absurd rfl htargs
    | cons a rest =>
      unfold handle_take
      simp only [hisl, hms]
      split_ifs <;> rfl
  have hlook1 : lookupIsland (handle_take s targs).1.world s.player.location =
      some { island with items := island.items.erase f } :=
    hstate ▸ lookupIsland_updateIsland_self s.world s.player.location _ island hisl
  have hstate2 : (handle_drop (handle_take s targs).1 dargs).1 =
      { world := updateIsland (handle_take s targs).1.world s.player.location
          (fun isl => { isl with items := isl.items ++ [f] }),
        player := { location := s.player.location,
                    inventory := (s.player.inventory ++ [f]).erase f } } := by
    cases dargs with
    | nil => exact absurd rfl hdargs
    | cons a rest =>
      unfold handle_drop
      rw [hstate]
      rw [hstate] at hdm
      simp only at hdm ⊢
      rw [hdm]
      have hl2 : lookupIsland
          (updateIsland s.world s.player.location
            (fun isl => { isl with items := isl.items.erase f })) s.player.location =
          some { island with items := island.items.erase f } :=
        lookupIsland_updateIsland_self s.world s.player.location _ island hisl
      simp only [hl2]
  refine ⟨by rw [hstate2], ?_, ?_, ?_, mem_erase_append_self island.items f hfmem⟩
  · intro x
    rw [hstate2]
    exact mem_append_singleton_erase s.player.inventory f x
  · intro k hk
    rw [hstate2]
    have h1 := lookupIsland_updateIsland_ne (handle_take s targs).1.world
      s.player.location k (fun isl => { isl with items := isl.items ++ [f] }) hk
    rw [h1, hstate]
    exact lookupIsland_updateIsland_ne s.world s.player.location k _ hk
  · rw [hstate2]
    have h2 := lookupIsland_updateIsland_self (handle_take s targs).1.world
      s.player.location (fun isl => { isl with items := isl.items ++ [f] })
      { island with items := island.items.erase f } hlook1
    rw [h2]

/-- Witness for the amended C10 at a concrete input: at Doubloon Point,
`take doubloon` then `drop doubloon` restores the original ownership. -/
theorem C10_take_then_drop_restores_witness :
    lookupIsland dpState.world dpState.player.location = some dpIsland ∧
      dpIsland.items.filter (matchesItem (lowerStr (String.intercalate " " ["doubloon"]))) =
        ["doubloon"] ∧
      (handle_take dpState ["doubloon"]).1.player.inventory.filter
        (matchesItem (lowerStr (String.intercalate " " ["doubloon"]))) = ["doubloon"] ∧
      (((handle_drop (handle_take dpState ["doubloon"]).1 ["doubloon"]).1.player.location =
          dpState.player.location) ∧
        (∀ x, x ∈ (handle_drop (handle_take dpState ["doubloon"]).1 ["doubloon"]).1.player.inventory ↔
          x ∈ dpState.player.inventory) ∧
        (∀ k, k ≠ dpState.player.location →
          lookupIsland (handle_drop (handle_take dpState ["doubloon"]).1 ["doubloon"]).1.world k =
            lookupIsland dpState.world k) ∧
        (lookupIsland (handle_drop (handle_take dpState ["doubloon"]).1 ["doubloon"]).1.world
            dpState.player.location =
          some { dpIsland with items := dpIsland.items.erase "doubloon" ++ ["doubloon"] }) ∧
        (∀ x, x ∈ dpIsland.items.erase "doubloon" ++ ["doubloon"] ↔ x ∈ dpIsland.items)) :=
  ⟨by decide, by decide, by decide,
    C10_take_then_drop_restores dpState ["doubloon"] ["doubloon"] dpIsland "doubloon" [] []
      (by decide) (by decide) (by decide) (by decide) (by decide)⟩

end PirateIslands
